import Mathlib

/-!
# Verification of the standup-bot scheduling engine

Shallow embedding of `src/schedule_engine.py` (classes `SchedulePattern`,
`ScheduleEngine`, `CalendarIntegration`) and of the day-gating helpers of
`src/zulip_bots/zulip_bots/bots/standup/standup.py`
(`_parse_days_config`, `_is_holiday`, `_should_run_standup_on_date`),
together with theorems about the spec's claims on this code.

Modelling conventions:
* Instants are naive wall-clock datetimes in a single fixed timezone
  (the Python code localizes everything into `pattern.timezone` before
  comparing; DST anomalies are not modelled).  `datetime.timestamp()` is a
  strictly monotone map from such datetimes to the reals, so engine
  timestamps are modelled by the total minute count `DateTime.toMin`,
  and `datetime.fromtimestamp` by `fromMin`.
* Calendar arithmetic (`datetime.date`, `timedelta`, `calendar.monthrange`,
  `dateutil.relativedelta`) is modelled with the standard civil-calendar
  bijection between dates and day numbers (`rataDie` / `civilFromRata`).
* `dateutil.rrule` is an external library; its documented semantics for the
  exact calls the source makes (`DAILY`/`WEEKLY`/`MONTHLY`/`YEARLY` with
  `interval`, `byweekday`, `bymonthday`, `bymonth`, `dtstart` at midnight,
  `count=100`) are reproduced by explicit candidate lists below.
* Python `int(...)` applied to time components is modelled as parsing a
  non-empty decimal digit string; python dicts keyed by strings are
  modelled as association lists with last-write-wins lookup.
-/

/-! ## Civil calendar arithmetic -/

/-- Proleptic-Gregorian leap-year test (`calendar.isleap`). -/
def isLeap (y : Nat) : Bool :=
  y % 4 == 0 && (y % 100 != 0 || y % 400 == 0)

/-- Length of month `m` of year `y` (`calendar.monthrange(y, m)[1]`). -/
def monthLen (y m : Nat) : Nat :=
  if m = 2 then (if isLeap y then 29 else 28)
  else if m = 4 ∨ m = 6 ∨ m = 9 ∨ m = 11 then 30
  else 31

/-- A calendar date, `datetime.date(year, month, day)`. -/
structure Date where
  year : Nat
  month : Nat
  day : Nat
deriving DecidableEq, Repr

/-- Day number of a date (days since 0000-03-01 of the proleptic Gregorian
calendar); the standard civil-from-days bijection.  Strictly monotone in
the date, so Python's `date` comparisons are modelled by comparing
`rataDie` values. -/
def rataDie (d : Date) : Nat :=
  let y := if d.month ≤ 2 then d.year - 1 else d.year
  let era := y / 400
  let yoe := y % 400
  let mp := (d.month + 9) % 12
  let doy := (153 * mp + 2) / 5 + (d.day - 1)
  let doe := yoe * 365 + yoe / 4 - yoe / 100 + doy
  era * 146097 + doe

/-- Inverse of `rataDie`: the date with the given day number. -/
def civilFromRata (z : Nat) : Date :=
  let era := z / 146097
  let doe := z % 146097
  let yoe := (doe - doe / 1460 + doe / 36524 - doe / 146096) / 365
  let y := yoe + era * 400
  let doy := doe - (365 * yoe + yoe / 4 - yoe / 100)
  let mp := (5 * doy + 2) / 153
  let d := doy - (153 * mp + 2) / 5 + 1
  let m := if mp < 10 then mp + 3 else mp - 9
  ⟨if m ≤ 2 then y + 1 else y, m, d⟩

/-- `date.weekday()`: Monday = 0 … Sunday = 6, computed from the day
number (1970-01-01, day number 719468, was a Thursday = 3). -/
def weekdayOfRata (z : Nat) : Nat := (z + 2) % 7

/-- `date.weekday()` on a `Date`. -/
def Date.weekday (d : Date) : Nat := weekdayOfRata (rataDie d)

/-- `date + datetime.timedelta(days = n)`. -/
def addDays (d : Date) (n : Nat) : Date := civilFromRata (rataDie d + n)

/-- A wall-clock instant, `datetime.datetime(y, m, d, hour, minute)`
(seconds/microseconds are always zeroed by the source). -/
structure DateTime where
  date : Date
  hour : Nat
  minute : Nat
deriving DecidableEq, Repr

/-- Total minutes of an instant; models `datetime.timestamp()` up to the
fixed affine change of scale, hence models all datetime comparisons. -/
def DateTime.toMin (t : DateTime) : Nat :=
  rataDie t.date * 1440 + t.hour * 60 + t.minute

/-- Models `datetime.fromtimestamp` (inverse of `DateTime.toMin`). -/
def fromMin (n : Nat) : DateTime :=
  ⟨civilFromRata (n / 1440), n % 1440 / 60, n % 60⟩

/-! ## Python string helpers

Kernel-reducible models of the `str` methods the source uses
(`split` on a one-character separator, `lower`, `strip`, `isdigit`,
`int`), written by structural recursion over the character list. -/

/-- `str.split(sep)` on the character list, single-character separator. -/
def splitChar (sep : Char) : List Char → List (List Char)
  | [] => [[]]
  | x :: xs =>
    match splitChar sep xs with
    | [] => [[]]
    | h :: t => if x = sep then [] :: h :: t else (x :: h) :: t

/-- `str.split(sep)` for a single-character separator. -/
def pySplit (sep : Char) (s : String) : List String :=
  (splitChar sep s.data).map String.mk

/-- ASCII lower-casing of one character (`str.lower`). -/
def charLower (c : Char) : Char :=
  if 'A' ≤ c ∧ c ≤ 'Z' then Char.ofNat (c.toNat + 32) else c

/-- `str.lower()`. -/
def pyLower (s : String) : String := ⟨s.data.map charLower⟩

/-- The whitespace `str.strip()` removes. -/
def isSpaceChar (c : Char) : Bool :=
  c = ' ' ∨ c = '\t' ∨ c = '\n' ∨ c = '\r'

/-- `str.strip()`. -/
def pyTrim (s : String) : String :=
  ⟨((s.data.dropWhile isSpaceChar).reverse.dropWhile isSpaceChar).reverse⟩

/-- `str.isdigit()` (restricted to ASCII digits). -/
def isDigits (s : String) : Bool :=
  !s.data.isEmpty && s.data.all (fun c => '0' ≤ c && c ≤ '9')

/-- `int(s)` on a string of decimal digits. -/
def digitsToNat (s : String) : Nat :=
  s.data.foldl (fun a c => a * 10 + (c.toNat - '0'.toNat)) 0

/-! ## SchedulePattern (src/schedule_engine.py lines 17-290) -/

/-- `WEEKDAY_NUM_MAP` / `WEEKDAY_MAP` of `SchedulePattern` (both map the
same seven names; rrule weekday constants are identified with their
numbers). -/
def weekdayNumMap (s : String) : Option Nat :=
  if s = "monday" then some 0
  else if s = "tuesday" then some 1
  else if s = "wednesday" then some 2
  else if s = "thursday" then some 3
  else if s = "friday" then some 4
  else if s = "saturday" then some 5
  else if s = "sunday" then some 6
  else none

/-- The kind-specific fields set by `SchedulePattern.__init__` for each
`pattern_type` string (an unrecognized string sets none of them). -/
inductive PatternKind where
  | daily (interval : Nat)
  | weekly (days : List String) (interval : Nat)
  | monthly (interval : Nat) (day : Option Nat) (nthWeekday : Option String)
  | yearly (month : Nat) (day : Nat) (interval : Nat)
  | oneTime (date : Date)
  | otherType
deriving DecidableEq, Repr

/-- `SchedulePattern`: the fields every pattern carries plus the
kind-specific ones.  `timezone` is not carried (single-timezone model);
`end_date` strings are modelled as parsed dates and exclusion strings
(canonical `YYYY-MM-DD`) as parsed dates. -/
structure SchedulePattern where
  kind : PatternKind
  time : String
  endDate : Option Date
  exclusions : List Date
deriving DecidableEq, Repr

/-- The keyword arguments accepted by `SchedulePattern.__init__`. -/
structure PatternKwargs where
  time : Option String := none
  endDate : Option Date := none
  exclusions : Option (List Date) := none
  interval : Option Nat := none
  days : Option (List String) := none
  day : Option Nat := none
  nthWeekday : Option String := none
  month : Option Nat := none
  date : Option Date := none

/-- `SchedulePattern.__init__(pattern_type, **kwargs)`
(src/schedule_engine.py lines 42-78).  The only failure path in the
source is a one-time pattern without a date; every other input is
accepted unvalidated. -/
def SchedulePattern.init (patternType : String) (kw : PatternKwargs) :
    Except String SchedulePattern :=
  let mk := fun k => Except.ok
    { kind := k, time := kw.time.getD "00:00", endDate := kw.endDate,
      exclusions := kw.exclusions.getD [] }
  if patternType = "daily" then
    mk (.daily (kw.interval.getD 1))
  else if patternType = "weekly" then
    mk (.weekly (kw.days.getD ["monday"]) (kw.interval.getD 1))
  else if patternType = "monthly" then
    (if kw.day.isSome then
      mk (.monthly (kw.interval.getD 1) kw.day none)
    else if kw.nthWeekday.isSome then
      mk (.monthly (kw.interval.getD 1) none kw.nthWeekday)
    else
      mk (.monthly (kw.interval.getD 1) (some 1) none))
  else if patternType = "yearly" then
    mk (.yearly (kw.month.getD 1) (kw.day.getD 1) (kw.interval.getD 1))
  else if patternType = "one_time" then
    (match kw.date with
     | none => Except.error "One-time schedule requires a date parameter"
     | some d => mk (.oneTime d))
  else
    mk .otherType

/-- `hours, minutes = map(int, self.time.split(':'))` with the
`(ValueError, AttributeError)` fallback to `0, 0`
(src/schedule_engine.py lines 152-156).  Python `int` on a time component
is modelled as parsing a non-empty string of decimal digits. -/
def parseTime (s : String) : Nat × Nat :=
  match pySplit ':' s with
  | [h, m] =>
    if isDigits h && isDigits m then (digitsToNat h, digitsToNat m)
    else (0, 0)
  | _ => (0, 0)

/-- The regex parse of an nth-weekday descriptor
(src/schedule_engine.py line 217): ordinal word (`none` result component
means `last`, `some n` the 1-based ordinal) and weekday number. -/
def parseNthWeekday (s : String) : Option (Option Nat × Nat) :=
  match pySplit ' ' (pyLower s) with
  | [p, w] =>
    match weekdayNumMap w with
    | none => none
    | some wd =>
      if p = "last" then some (none, wd)
      else if p = "first" ∨ p = "1st" then some (some 1, wd)
      else if p = "second" ∨ p = "2nd" then some (some 2, wd)
      else if p = "third" ∨ p = "3rd" then some (some 3, wd)
      else if p = "fourth" ∨ p = "4th" then some (some 4, wd)
      else if p = "fifth" ∨ p = "5th" then some (some 5, wd)
      else none
  | _ => none

/-- The `while dt.weekday() != weekday_num: dt -= timedelta(days=1)` walk
of the `last` branch (src/schedule_engine.py lines 229-230), on day
numbers.  The loop needs at most 6 steps; fuel 7 is sufficient. -/
def walkBack (wd : Nat) : Nat → Nat → Nat
  | 0, r => r
  | fuel + 1, r => if weekdayOfRata r = wd then r else walkBack wd fuel (r - 1)

/-- The candidate date the nth-weekday branch computes for one month
(src/schedule_engine.py lines 224-254): `last` walks back from the last
day of the month; an ordinal `n` takes the first matching weekday on/after
day 1 plus `(n-1)` weeks, discarded if it overflows the month (the
source's `dt.month != current.month` check, equivalent to
`dom > monthLen` since the overflow is at most 13 days). -/
def nthCandidateDate (y m : Nat) (pos : Option Nat) (wd : Nat) : Option Date :=
  match pos with
  | none => some (civilFromRata (walkBack wd 7 (rataDie ⟨y, m, monthLen y m⟩)))
  | some n =>
    let first := rataDie ⟨y, m, 1⟩
    let daysUntil := (wd + 7 - weekdayOfRata first) % 7
    let dom := 1 + daysUntil + 7 * (n - 1)
    if dom ≤ monthLen y m then some ⟨y, m, dom⟩ else none

/-- `for dt in rule: dt = dt.replace(hour, minute); if dt > after and
dt.strftime('%Y-%m-%d') not in self.exclusions: return dt`
(src/schedule_engine.py lines 280-290; the one-time and nth-weekday
branches apply the same guard inline). -/
def pickFirst (after : DateTime) (excl : List Date) (cands : List DateTime) :
    Option DateTime :=
  cands.find? (fun dt => decide (after.toMin < dt.toMin) && !excl.contains dt.date)

/-- Candidate instants generated by each branch of
`SchedulePattern.next_occurrence` before the shared `dt > after` /
exclusion guard.  `dtstart` is midnight of `after`'s date throughout
(`after.replace(hour=0, minute=0, second=0, microsecond=0)`).
Branches where the source returns `None` without building candidates
(weekly with no recognized day, monthly with neither field truthy,
unknown pattern type) produce `[]`. -/
def candidateList (p : SchedulePattern) (after : DateTime) : List DateTime :=
  let hm := parseTime p.time
  let startDate := after.date
  let startR := rataDie startDate
  match p.kind with
  | .oneTime d => [⟨d, hm.1, hm.2⟩]
  | .daily interval =>
    -- rrule(DAILY, interval, dtstart, count=100)
    (List.range 100).map (fun k => ⟨civilFromRata (startR + k * interval), hm.1, hm.2⟩)
  | .weekly days interval =>
    let wds := days.filterMap (fun d => weekdayNumMap (pyLower d))
    if wds.isEmpty then []
    else
      -- rrule(WEEKLY, interval, byweekday, dtstart, count=100): the first
      -- 100 days on/after dtstart whose weekday is in the set and whose
      -- Monday-based week lies a multiple of `interval` weeks from
      -- dtstart's week.
      (((List.range (700 * interval + 7)).map (fun i => startR + i)).filter
        (fun r => wds.contains (weekdayOfRata r) &&
          ((r + 2) / 7 - (startR + 2) / 7) % interval == 0)).take 100
        |>.map (fun r => ⟨civilFromRata r, hm.1, hm.2⟩)
  | .monthly interval day nth =>
    -- python truthiness: `if self.day:` then `elif self.nth_weekday:`
    if day.getD 0 ≠ 0 then
      -- rrule(MONTHLY, interval, bymonthday=day, dtstart, count=100):
      -- months stepped by `interval` from dtstart's month, skipping months
      -- shorter than `day`, occurrences on/after dtstart.
      let d := day.getD 0
      let startYM := startDate.year * 12 + (startDate.month - 1)
      ((List.range 1300).filterMap (fun k =>
        let ym := startYM + k * interval
        let y := ym / 12
        let m := ym % 12 + 1
        if d ≤ monthLen y m ∧ startR ≤ rataDie ⟨y, m, d⟩ then
          some (⟨⟨y, m, d⟩, hm.1, hm.2⟩ : DateTime)
        else none)).take 100
    else if nth.getD "" ≠ "" then
      -- the hand-rolled 12-month loop (lines 209-263)
      let startYM := startDate.year * 12 + (startDate.month - 1)
      (List.range 12).filterMap (fun k =>
        let ym := startYM + k * interval
        let y := ym / 12
        let m := ym % 12 + 1
        match parseNthWeekday (nth.getD "") with
        | none => none
        | some (pos, wd) =>
          (nthCandidateDate y m pos wd).map (fun d => ⟨d, hm.1, hm.2⟩))
    else []
  | .yearly month dayOfMonth interval =>
    -- rrule(YEARLY, interval, bymonth, bymonthday, dtstart, count=100)
    ((List.range 100).filterMap (fun k =>
      let y := startDate.year + k * interval
      if month ≥ 1 ∧ month ≤ 12 ∧ dayOfMonth ≤ monthLen y month ∧
          startR ≤ rataDie ⟨y, month, dayOfMonth⟩ then
        some (⟨⟨y, month, dayOfMonth⟩, hm.1, hm.2⟩ : DateTime)
      else none))
  | .otherType => []

/-- `SchedulePattern.next_occurrence(after)`
(src/schedule_engine.py lines 138-290).  `after` is an explicit argument
(the Python default `now` is supplied by callers below). -/
def SchedulePattern.nextOccurrence (p : SchedulePattern) (after : DateTime) :
    Option DateTime :=
  match p.endDate with
  | some ed => if rataDie ed < rataDie after.date then none
               else pickFirst after p.exclusions (candidateList p after)
  | none => pickFirst after p.exclusions (candidateList p after)

/-! ## ScheduleEngine (src/schedule_engine.py lines 293-400) -/

/-- One queue entry `(next_timestamp, task_id, pattern, task_func, args)`;
the opaque callback and argument tuple are not modelled (no claim reads
them), the timestamp is the instant's total minute count. -/
structure ScheduledTask where
  fireAt : Nat
  id : String
  pattern : SchedulePattern
deriving DecidableEq, Repr

/-- `self.task_map` — a python dict from task id to index, modelled as an
association list with last-write-wins semantics (`mapSet` below keeps one
binding per key; lookup takes the binding of the key if present). -/
abbrev TaskMap := List (String × Nat)

/-- Dict lookup `m[k]` / `k in m`. -/
def mapLookup (m : TaskMap) (k : String) : Option Nat :=
  (List.find? (fun p => p.1 = k) m).map (fun p => p.2)

/-- Dict assignment `m[k] = v`. -/
def mapSet (m : TaskMap) (k : String) (v : Nat) : TaskMap :=
  List.filter (fun p => p.1 ≠ k) m ++ [(k, v)]

/-- Dict deletion `del m[k]`. -/
def mapDel (m : TaskMap) (k : String) : TaskMap :=
  List.filter (fun p => p.1 ≠ k) m

/-- `self.task_map = {task[1]: i for i, task in enumerate(tasks)}`
(src/schedule_engine.py lines 352 and 400). -/
def rebuildMap (tasks : List ScheduledTask) : TaskMap :=
  (tasks.enum.map (fun p => (p.2.id, p.1))).foldl
    (fun m p => mapSet m p.1 p.2) []

/-- Stable insertion into a fire-time-sorted list (earlier-inserted
entries stay before later entries with an equal key, as python's stable
`list.sort(key=lambda x: x[0])` guarantees). -/
def insertByFire (t : ScheduledTask) : List ScheduledTask → List ScheduledTask
  | [] => [t]
  | h :: rest =>
    if h.fireAt < t.fireAt then h :: insertByFire t rest else t :: h :: rest

/-- Stable sort by fire time, `tasks.sort(key=lambda x: x[0])`. -/
def sortByFire : List ScheduledTask → List ScheduledTask
  | [] => []
  | h :: rest => insertByFire h (sortByFire rest)

/-- Engine state: the entry list (with `None` tombstones) and the id
index. -/
structure ScheduleEngine where
  scheduledTasks : List (Option ScheduledTask)
  taskMap : TaskMap

/-- `ScheduleEngine.__init__`. -/
def ScheduleEngine.empty : ScheduleEngine := ⟨[], []⟩

/-- `ScheduleEngine._sort_tasks` (lines 391-400): drop tombstones, sort
by timestamp, rebuild the index from scratch. -/
def ScheduleEngine.sortTasks (st : ScheduleEngine) : ScheduleEngine :=
  let ts := sortByFire (st.scheduledTasks.filterMap id)
  ⟨ts.map some, rebuildMap ts⟩

/-- `ScheduleEngine.schedule_task(task_id, pattern, ...)`
(lines 304-329).  The source computes `pattern.next_occurrence()` with no
argument, i.e. at the current wall-clock instant, which is passed here
explicitly as `now`. -/
def ScheduleEngine.scheduleTask (st : ScheduleEngine) (now : DateTime)
    (taskId : String) (p : SchedulePattern) : Bool × ScheduleEngine :=
  match p.nextOccurrence now with
  | none => (false, st)
  | some nt =>
    let task : ScheduledTask := ⟨nt.toMin, taskId, p⟩
    let tasks1 :=
      match mapLookup st.taskMap taskId with
      | some oldIndex => st.scheduledTasks.set oldIndex none
      | none => st.scheduledTasks
    let tasks2 := tasks1 ++ [some task]
    let st2 : ScheduleEngine :=
      ⟨tasks2, mapSet st.taskMap taskId (tasks2.length - 1)⟩
    (true, st2.sortTasks)

/-- `ScheduleEngine.cancel_task(task_id)` (lines 331-338). -/
def ScheduleEngine.cancelTask (st : ScheduleEngine) (taskId : String) :
    Bool × ScheduleEngine :=
  match mapLookup st.taskMap taskId with
  | some index =>
    (true, ⟨st.scheduledTasks.set index none, mapDel st.taskMap taskId⟩)
  | none => (false, st)

/-- The `while self.scheduled_tasks and self.scheduled_tasks[0][0] <=
current_time` pop loop of `get_due_tasks` (lines 358-373): returns the
popped due entries, the index after the per-pop deletions, and the
remaining entry list. -/
def popDue (nowMin : Nat) : List ScheduledTask → TaskMap → List ScheduledTask × TaskMap × List ScheduledTask
  | [], m => ([], m, [])
  | t :: rest, m =>
    if t.fireAt ≤ nowMin then
      let r := popDue nowMin rest (mapDel m t.id)
      (t :: r.1, r.2.1, r.2.2)
    else ([], m, t :: rest)

/-- Whether a popped recurring task is queued for rescheduling
(lines 366-373): not one-time, and `pattern.next_occurrence(after_time)`
with `after_time` the popped entry's fire instant is non-null. -/
def wantsReschedule (t : ScheduledTask) : Bool :=
  (match t.pattern.kind with | .oneTime _ => false | _ => true) &&
    (t.pattern.nextOccurrence (fromMin t.fireAt)).isSome

/-- `ScheduleEngine.get_due_tasks(current_time)` (lines 340-379).  The
caller (`scheduler.py` line 58) passes `time.time()`, so the due cutoff
and the wall clock used by the rescheduling `schedule_task` calls are the
same instant `now`. -/
def ScheduleEngine.getDueTasks (st : ScheduleEngine) (now : DateTime) :
    List String × ScheduleEngine :=
  -- lines 349-355: drop tombstones, rebuild the map, sort
  let ts := sortByFire (st.scheduledTasks.filterMap id)
  let r := popDue now.toMin ts (rebuildMap ts)
  let due := r.1
  let st1 : ScheduleEngine := ⟨r.2.2.map some, r.2.1⟩
  -- lines 375-377: reschedule recurring tasks via schedule_task
  let stFinal := (due.filter wantsReschedule).foldl
    (fun s t => (s.scheduleTask now t.id t.pattern).2) st1
  (due.map (fun t => t.id), stFinal)

/-- `ScheduleEngine.get_next_occurrence(task_id)` (lines 381-389). -/
def ScheduleEngine.getNextOccurrence (st : ScheduleEngine) (taskId : String) :
    Option DateTime :=
  match mapLookup st.taskMap taskId with
  | some index =>
    match st.scheduledTasks.get? index with
    | some (some t) => some (fromMin t.fireAt)
    | _ => none
  | none => none

/-! ## CalendarIntegration (src/schedule_engine.py lines 506-579) -/

/-- One OOO period dict. Date strings are kept as strings and compared
lexicographically, exactly as the source compares them. -/
structure OOOPeriod where
  startDate : String
  endDate : String
  reason : Option String
deriving DecidableEq, Repr

/-- Stable insertion by start date (python's stable
`sort(key=lambda x: x['start_date'])`). -/
def insertByStart (p : OOOPeriod) : List OOOPeriod → List OOOPeriod
  | [] => [p]
  | h :: rest =>
    if h.startDate < p.startDate then h :: insertByStart p rest
    else p :: h :: rest

/-- Stable sort of OOO periods by start date. -/
def sortByStart : List OOOPeriod → List OOOPeriod
  | [] => []
  | h :: rest => insertByStart h (sortByStart rest)

/-- `CalendarIntegration`: `user_ooo` maps a user id to their period
list; a user absent from the python dict behaves exactly like one mapped
to the empty list in every method, so the dict is modelled as a total
function. -/
structure CalendarIntegration where
  userOOO : Nat → List OOOPeriod

/-- `CalendarIntegration.__init__`. -/
def CalendarIntegration.empty : CalendarIntegration := ⟨fun _ => []⟩

/-- `CalendarIntegration.add_ooo` (lines 513-526): append the new period,
then sort the user's periods by start date. -/
def CalendarIntegration.addOOO (c : CalendarIntegration) (userId : Nat)
    (startDate endDate : String) (reason : Option String) : CalendarIntegration :=
  ⟨fun u => if u = userId
    then sortByStart (c.userOOO userId ++ [⟨startDate, endDate, reason⟩])
    else c.userOOO u⟩

/-- The scan of `remove_ooo` (lines 534-537): delete the first period
whose start and end dates both match, or report failure. -/
def removeFirstMatch (startDate endDate : String) :
    List OOOPeriod → Option (List OOOPeriod)
  | [] => none
  | p :: rest =>
    if p.startDate = startDate ∧ p.endDate = endDate then some rest
    else (removeFirstMatch startDate endDate rest).map (fun r => p :: r)

/-- `CalendarIntegration.remove_ooo` (lines 528-539). -/
def CalendarIntegration.removeOOO (c : CalendarIntegration) (userId : Nat)
    (startDate endDate : String) : Bool × CalendarIntegration :=
  match removeFirstMatch startDate endDate (c.userOOO userId) with
  | some l =>
    (true, ⟨fun u => if u = userId then l else c.userOOO u⟩)
  | none => (false, c)

/-- `CalendarIntegration.is_user_ooo(user_id, date)` (lines 541-557). -/
def CalendarIntegration.isUserOOO (c : CalendarIntegration) (userId : Nat)
    (dateStr : String) : Bool :=
  (c.userOOO userId).any
    (fun p => decide (p.startDate ≤ dateStr) && decide (dateStr ≤ p.endDate))

/-! ## Day gating (standup.py lines 1435-1588) -/

/-- The country classes the bot recognizes (`_get_holiday_calendar`,
standup.py lines 1440-1456); anything else falls back to Nigeria. -/
inductive HolidayCountry where
  | unitedStates
  | nigeria
deriving DecidableEq, Repr

/-- `country_map.get(country.lower().strip())` with the Nigeria
fallback. -/
def resolveCountry (country : String) : HolidayCountry :=
  let k := pyTrim (pyLower country)
  if k = "us" ∨ k = "usa" ∨ k = "united states" ∨ k = "united_states" then
    .unitedStates
  else .nigeria

/-- A holiday table: what the third-party `holidays` library answers for
`date_obj in holiday_class()`.  The gate is proved for every table; the
concrete table used in witnesses is `usFederalHolidays2024` below. -/
abbrev HolidayTable := HolidayCountry → Date → Bool

/-- `_is_holiday(date_obj, country)` (standup.py lines 1465-1476). -/
def isHolidayIn (tbl : HolidayTable) (d : Date) (country : String) : Bool :=
  tbl (resolveCountry country) d

/-- Models the `holidays` library's United States table for 2024 (the
eleven federal holidays); dates outside 2024 and the Nigeria table are
not needed by any claim and answer `false`. -/
def usFederalHolidays2024 : HolidayTable := fun c d =>
  match c with
  | .unitedStates =>
    [(⟨2024,1,1⟩ : Date), ⟨2024,1,15⟩, ⟨2024,2,19⟩, ⟨2024,5,27⟩,
      ⟨2024,6,19⟩, ⟨2024,7,4⟩, ⟨2024,9,2⟩, ⟨2024,10,14⟩,
      ⟨2024,11,11⟩, ⟨2024,11,28⟩, ⟨2024,12,25⟩].contains d
  | .nigeria => false

/-- `day_mapping` of `_parse_days_config` (standup.py lines 1527-1535). -/
def dayNameMap (s : String) : Option Nat :=
  if s = "mon" ∨ s = "monday" then some 0
  else if s = "tue" ∨ s = "tuesday" then some 1
  else if s = "wed" ∨ s = "wednesday" then some 2
  else if s = "thu" ∨ s = "thursday" then some 3
  else if s = "fri" ∨ s = "friday" then some 4
  else if s = "sat" ∨ s = "saturday" then some 5
  else if s = "sun" ∨ s = "sunday" then some 6
  else none

/-- `_parse_days_config(days_str)` (standup.py lines 1500-1543).
`sorted(list(set(days)))` over numbers all ≤ 6 is the ascending
duplicate-free enumeration, written here as a filter over `0..6`. -/
def parseDaysConfig (s : String) : List Nat :=
  if s = "" then [0, 1, 2, 3, 4]
  else
    let t := pyTrim (pyLower s)
    if t = "weekdays" ∨ t = "workdays" then [0, 1, 2, 3, 4]
    else if t = "weekend" then [5, 6]
    else if t = "all" ∨ t = "everyday" ∨ t = "daily" then [0, 1, 2, 3, 4, 5, 6]
    else
      let days := (pySplit ',' t).foldl (fun acc d0 =>
        let d := pyTrim d0
        if isDigits d then
          let n := digitsToNat d
          if n ≤ 6 then acc ++ [n] else acc
        else
          match dayNameMap d with
          | some n => acc ++ [n]
          | none => acc) []
      if days = [] then [0, 1, 2, 3, 4]
      else (List.range 7).filter (fun n => days.contains n)

/-- The channel configuration fields `_should_run_standup_on_date` reads
(`days`, `skip_holidays`, `holiday_country`; the python `.get` defaults
apply when the stored dict lacks the key and are the callers' concern). -/
structure ChannelConfig where
  days : String
  skipHolidays : Bool
  holidayCountry : String

/-- `_should_run_standup_on_date(check_date, channel_config)`
(standup.py lines 1565-1588), parametrized by the holiday table the
`holidays` library would answer from. -/
def shouldRunStandupOnDate (tbl : HolidayTable) (checkDate : Date)
    (cfg : ChannelConfig) : Bool :=
  let allowedDays := parseDaysConfig cfg.days
  if !allowedDays.contains checkDate.weekday then false
  else if cfg.skipHolidays && isHolidayIn tbl checkDate cfg.holidayCountry then
    false
  else true

instance : DecidableEq (Except String SchedulePattern)
  | .error a, .error b =>
    if h : a = b then .isTrue (by rw [h]) else .isFalse (by simp [h])
  | .error _, .ok _ => .isFalse (by simp)
  | .ok _, .error _ => .isFalse (by simp)
  | .ok a, .ok b =>
    if h : a = b then .isTrue (by rw [h]) else .isFalse (by simp [h])

/-! ## Shared lemmas -/

/-- Anything `pickFirst` returns passed its guard, so it is strictly
after `after`. -/
theorem pickFirst_gt (after : DateTime) (excl : List Date)
    (cands : List DateTime) (dt : DateTime)
    (h : pickFirst after excl cands = some dt) : after.toMin < dt.toMin := by
  have hp := List.find?_some h
  simp only [Bool.and_eq_true, decide_eq_true_eq] at hp
  exact hp.1

/-- Every branch of `next_occurrence` funnels through the
`dt > after` guard, so any non-null result is strictly after `after`. -/
theorem nextOccurrence_gt (p : SchedulePattern) (after dt : DateTime)
    (h : p.nextOccurrence after = some dt) : after.toMin < dt.toMin := by
  unfold SchedulePattern.nextOccurrence at h
  rcases hed : p.endDate with - | ed <;> rw [hed] at h
  · exact pickFirst_gt _ _ _ _ h
  · by_cases hlt : rataDie ed < rataDie after.date
    · simp [hlt] at h
    · simp only [hlt, if_false] at h
      exact pickFirst_gt _ _ _ _ h

/-! ## Concrete inputs used by witnesses and counterexamples -/

/-- Daily pattern at 09:00 with no end date. -/
def dailyNine : SchedulePattern := ⟨.daily 1, "09:00", none, []⟩

/-- Daily pattern at 09:00 ending (inclusively) 2024-01-10. -/
def dailyNineEnding : SchedulePattern := ⟨.daily 1, "09:00", some ⟨2024, 1, 10⟩, []⟩

/-- Monthly "last friday" pattern at 09:00. -/
def lastFridayMonthly : SchedulePattern :=
  ⟨.monthly 1 none (some "last friday"), "09:00", none, []⟩

/-- An engine holding one recurring daily task whose entry was scheduled
to fire at 2024-01-01 09:00. -/
def engineOneDaily : ScheduleEngine :=
  ⟨[some ⟨DateTime.toMin ⟨⟨2024, 1, 1⟩, 9, 0⟩, "t", dailyNine⟩], [("t", 0)]⟩

/-- One-time pattern on 2024-01-02 at 09:00. -/
def oneTimeJan2 : SchedulePattern := ⟨.oneTime ⟨2024, 1, 2⟩, "09:00", none, []⟩

/-- One-time pattern on 2024-01-03 at 09:00. -/
def oneTimeJan3 : SchedulePattern := ⟨.oneTime ⟨2024, 1, 3⟩, "09:00", none, []⟩

/-- One-time pattern on 2024-01-04 at 09:00. -/
def oneTimeJan4 : SchedulePattern := ⟨.oneTime ⟨2024, 1, 4⟩, "09:00", none, []⟩

/-- Engine built by scheduling the two one-time tasks "A" and "B" from the
empty engine at 2024-01-01 08:00. -/
def engineAB : ScheduleEngine :=
  (((ScheduleEngine.empty.scheduleTask ⟨⟨2024, 1, 1⟩, 8, 0⟩ "A" oneTimeJan2).2
    ).scheduleTask ⟨⟨2024, 1, 1⟩, 8, 0⟩ "B" oneTimeJan3).2

/-- `engineAB` after a tick at 2024-01-02 12:00, which pops "A" only. -/
def engineABTicked : List String × ScheduleEngine :=
  engineAB.getDueTasks ⟨⟨2024, 1, 2⟩, 12, 0⟩

/-- Engine built by scheduling the three one-time tasks "A", "B", "C"
from the empty engine at 2024-01-01 08:00. -/
def engineABC : ScheduleEngine :=
  ((((ScheduleEngine.empty.scheduleTask ⟨⟨2024, 1, 1⟩, 8, 0⟩ "A"
      oneTimeJan2).2).scheduleTask ⟨⟨2024, 1, 1⟩, 8, 0⟩ "B"
      oneTimeJan3).2).scheduleTask ⟨⟨2024, 1, 1⟩, 8, 0⟩ "C" oneTimeJan4 |>.2

/-- `engineABC` after a tick at 2024-01-02 12:00: "A" is popped, leaving
the stale map with "B" at its pre-pop index 1 and "C" at 2 over the
two-entry list [B, C]. -/
def engineABCStale : ScheduleEngine :=
  (engineABC.getDueTasks ⟨⟨2024, 1, 2⟩, 12, 0⟩).2

/-! ## Claim theorems -/

/-- **C2** — for every `SchedulePattern` P and instant T,
`P.next_occurrence(T)` returns an instant strictly greater than T or
null; never one less than or equal to T. -/
theorem claim_next_occurrence_strictly_after
    (p : SchedulePattern) (after dt : DateTime)
    (h : p.nextOccurrence after = some dt) : after.toMin < dt.toMin :=
  nextOccurrence_gt p after dt h

/-- Witness for **C2** at a concrete pattern and instant. -/
theorem claim_next_occurrence_strictly_after_witness :
    dailyNine.nextOccurrence ⟨⟨2024, 1, 1⟩, 5, 0⟩ = some ⟨⟨2024, 1, 1⟩, 9, 0⟩ ∧
    DateTime.toMin ⟨⟨2024, 1, 1⟩, 5, 0⟩ < DateTime.toMin ⟨⟨2024, 1, 1⟩, 9, 0⟩ :=
  ⟨by decide, claim_next_occurrence_strictly_after dailyNine
    ⟨⟨2024, 1, 1⟩, 5, 0⟩ ⟨⟨2024, 1, 1⟩, 9, 0⟩ (by decide)⟩

/-- **C3** (failing input) — with `end_date = 2024-01-10` and
`after = 2024-01-10 10:00` (not yet past the end date), the daily 09:00
pattern returns 2024-01-11 09:00, an occurrence strictly after the
inclusive end date, instead of null: candidates are never filtered
against `end_date`. -/
theorem claim_end_date_overrun :
    dailyNineEnding.nextOccurrence ⟨⟨2024, 1, 10⟩, 10, 0⟩ =
      some ⟨⟨2024, 1, 11⟩, 9, 0⟩ ∧
    dailyNineEnding.endDate = some ⟨2024, 1, 10⟩ ∧
    rataDie ⟨2024, 1, 10⟩ < rataDie ⟨2024, 1, 11⟩ := by
  refine ⟨by decide, by decide, by decide⟩

/-- **C1** (failing input) — a daily 09:00 task whose entry was due at
2024-01-01 09:00 is popped by a late tick at 2024-01-03 10:00.
`pattern.next_occurrence(fire_at)` is 2024-01-02 09:00, but the
re-inserted entry fires at 2024-01-04 09:00 = `pattern.next_occurrence(now)`:
`get_due_tasks` only uses the fire-at-based value as a guard and lets
`schedule_task` recompute from the wall clock, skipping the backlogged
occurrences of 2024-01-02 and 2024-01-03. -/
theorem claim_tick_reschedules_from_wall_clock :
    (engineOneDaily.getDueTasks ⟨⟨2024, 1, 3⟩, 10, 0⟩).1 = ["t"] ∧
    (engineOneDaily.getDueTasks ⟨⟨2024, 1, 3⟩, 10, 0⟩).2.scheduledTasks =
      [some ⟨DateTime.toMin ⟨⟨2024, 1, 4⟩, 9, 0⟩, "t", dailyNine⟩] ∧
    dailyNine.nextOccurrence (fromMin (DateTime.toMin ⟨⟨2024, 1, 1⟩, 9, 0⟩)) =
      some ⟨⟨2024, 1, 2⟩, 9, 0⟩ ∧
    DateTime.toMin ⟨⟨2024, 1, 4⟩, 9, 0⟩ ≠ DateTime.toMin ⟨⟨2024, 1, 2⟩, 9, 0⟩ := by
  refine ⟨by decide, by decide, by decide, by decide⟩

/-- **C6** (counterexample) — constructing a daily pattern whose `time`
is the unparseable string "banana" succeeds (no construction-time
rejection), and the resulting pattern fires at 00:00: the invalid time is
silently coerced, contradicting the claim. -/
theorem claim_construction_accepts_invalid_time :
    SchedulePattern.init "daily" { time := some "banana" } =
      Except.ok ⟨.daily 1, "banana", none, []⟩ ∧
    (SchedulePattern.mk (.daily 1) "banana" none []).nextOccurrence
      ⟨⟨2024, 1, 1⟩, 5, 0⟩ = some ⟨⟨2024, 1, 2⟩, 0, 0⟩ := by
  refine ⟨by decide, by decide⟩

/-- **C6** (amended) — `SchedulePattern.__init__` performs no
validation (its only error is a one-time pattern without a date):
an unparseable time string is accepted and coerced to 00:00 inside
`next_occurrence`; a day list with no recognizable day is accepted and
silently yields no occurrences; an unsupported nth-weekday descriptor is
accepted and silently yields no occurrences; and when both Monthly fields
are supplied, `day` silently wins and `nth_weekday` is dropped. -/
theorem claim_construction_never_validates :
    (SchedulePattern.init "daily" { time := some "banana" } =
      Except.ok ⟨.daily 1, "banana", none, []⟩ ∧
     parseTime "banana" = (0, 0) ∧
     (SchedulePattern.mk (.daily 1) "banana" none []).nextOccurrence
       ⟨⟨2024, 1, 1⟩, 5, 0⟩ = some ⟨⟨2024, 1, 2⟩, 0, 0⟩) ∧
    (SchedulePattern.init "weekly" { days := some ["blursday"] } =
      Except.ok ⟨.weekly ["blursday"] 1, "00:00", none, []⟩ ∧
     (SchedulePattern.mk (.weekly ["blursday"] 1) "00:00" none []).nextOccurrence
       ⟨⟨2024, 1, 1⟩, 5, 0⟩ = none) ∧
    (SchedulePattern.init "monthly" { nthWeekday := some "umpteenth friday" } =
      Except.ok ⟨.monthly 1 none (some "umpteenth friday"), "00:00", none, []⟩ ∧
     (SchedulePattern.mk (.monthly 1 none (some "umpteenth friday"))
       "00:00" none []).nextOccurrence ⟨⟨2024, 1, 1⟩, 5, 0⟩ = none) ∧
    (SchedulePattern.init "monthly"
       { day := some 15, nthWeekday := some "first monday" } =
      Except.ok ⟨.monthly 1 (some 15) none, "00:00", none, []⟩) ∧
    (SchedulePattern.init "one_time" {} =
      Except.error "One-time schedule requires a date parameter") := by
  refine ⟨⟨by decide, by decide, by decide⟩, ⟨by decide, by decide⟩,
    ⟨by decide, by decide⟩, by decide, by decide⟩

/-- **C10** (failing input) — starting from the empty engine, schedule
one-time tasks "A" (2024-01-02 09:00) and "B" (2024-01-03 09:00) and tick
at 2024-01-02 12:00.  The tick pops "A" only and reschedules nothing, so
the entry list shrinks to one element while `task_map` still maps "B" to
its pre-pop index 1: the mapped index no longer names any entry
(`get_next_occurrence("B")` finds nothing; in python it raises
IndexError), violating the claimed invariant.  The invariant did hold
before the tick. -/
theorem claim_tick_leaves_stale_indices :
    engineABTicked.1 = ["A"] ∧
    engineABTicked.2.taskMap = [("B", 1)] ∧
    engineABTicked.2.scheduledTasks.length = 1 ∧
    engineABTicked.2.getNextOccurrence "B" = none ∧
    engineAB.taskMap = [("A", 0), ("B", 1)] ∧
    (engineAB.scheduledTasks.get? 1).isSome = true := by
  refine ⟨by decide, by decide, by decide, by decide, by decide, by decide⟩

/-- **C7** — the day gate equals "weekday allowed AND (holidays not
skipped OR not a holiday in the configured country)", for every holiday
table, date and configuration; concretely, with `days="weekdays"`,
`skip_holidays=true`, `holiday_country="United States"`, Thursday
2024-07-04 is excluded while Thursday 2024-07-11 is included. -/
theorem claim_should_run_day_gate :
    (∀ (tbl : HolidayTable) (d : Date) (cfg : ChannelConfig),
      shouldRunStandupOnDate tbl d cfg =
        ((parseDaysConfig cfg.days).contains d.weekday &&
          (!cfg.skipHolidays || !isHolidayIn tbl d cfg.holidayCountry))) ∧
    Date.weekday ⟨2024, 7, 4⟩ = 3 ∧ Date.weekday ⟨2024, 7, 11⟩ = 3 ∧
    shouldRunStandupOnDate usFederalHolidays2024 ⟨2024, 7, 4⟩
      ⟨"weekdays", true, "United States"⟩ = false ∧
    shouldRunStandupOnDate usFederalHolidays2024 ⟨2024, 7, 11⟩
      ⟨"weekdays", true, "United States"⟩ = true := by
  refine ⟨fun tbl d cfg => ?_, by decide, by decide, by decide, by decide⟩
  unfold shouldRunStandupOnDate
  cases h1 : (parseDaysConfig cfg.days).contains d.weekday <;>
    cases h2 : cfg.skipHolidays <;>
      cases h3 : isHolidayIn tbl d cfg.holidayCountry <;>
        simp_all

/-! ## OOO lemmas -/

/-- Stable insertion permutes to consing. -/
theorem insertByStart_perm (p : OOOPeriod) (l : List OOOPeriod) :
    List.Perm (insertByStart p l) (p :: l) := by
  induction l with
  | nil => exact List.Perm.refl _
  | cons h rest ih =>
    unfold insertByStart
    by_cases hc : h.startDate < p.startDate
    · simp only [hc, if_true]
      exact (ih.cons h).trans (List.Perm.swap p h rest)
    · simp only [hc, if_false]
      exact List.Perm.refl _

/-- The source's `sort(key=start_date)` permutes the period list. -/
theorem sortByStart_perm (l : List OOOPeriod) : List.Perm (sortByStart l) l := by
  induction l with
  | nil => exact List.Perm.refl _
  | cons h rest ih =>
    exact (insertByStart_perm h (sortByStart rest)).trans (ih.cons h)

/-- A successful `remove_ooo` scan deletes exactly one period whose
start and end match, keeping everything else in order. -/
theorem removeFirstMatch_some (s e : String) :
    ∀ l l' : List OOOPeriod, removeFirstMatch s e l = some l' →
      ∃ l1 q l2, l = l1 ++ q :: l2 ∧ l' = l1 ++ l2 ∧
        q.startDate = s ∧ q.endDate = e := by
  intro l
  induction l with
  | nil => intro l' h; simp [removeFirstMatch] at h
  | cons p rest ih =>
    intro l' h
    unfold removeFirstMatch at h
    by_cases hc : p.startDate = s ∧ p.endDate = e
    · rw [if_pos hc] at h
      exact ⟨[], p, rest, by simp, by simp [(Option.some.inj h).symm], hc.1, hc.2⟩
    · rw [if_neg hc, Option.map_eq_some'] at h
      obtain ⟨r, hr, hl'⟩ := h
      obtain ⟨l1, q, l2, h1, h2, h3, h4⟩ := ih r hr
      exact ⟨p :: l1, q, l2, by simp [h1], by simp [← hl', h2], h3, h4⟩

/-- A failed `remove_ooo` scan means no period matches. -/
theorem removeFirstMatch_none (s e : String) :
    ∀ l : List OOOPeriod, removeFirstMatch s e l = none →
      ∀ p ∈ l, ¬(p.startDate = s ∧ p.endDate = e) := by
  intro l
  induction l with
  | nil => intro _ p hp; simp at hp
  | cons q rest ih =>
    intro h p hp
    unfold removeFirstMatch at h
    by_cases hc : q.startDate = s ∧ q.endDate = e
    · rw [if_pos hc] at h
      exact Option.noConfusion h
    · rw [if_neg hc, Option.map_eq_none'] at h
      rcases List.mem_cons.mp hp with rfl | hmem
      · exact hc
      · exact ih h p hmem

/-- Two lists with equally many periods satisfying `pd` agree on `any pd`. -/
theorem any_congr_countP {α : Type} (pd : α → Bool) (l l' : List α)
    (hc : l.countP pd = l'.countP pd) : l.any pd = l'.any pd := by
  rw [Bool.eq_iff_iff, List.any_eq_true, List.any_eq_true,
    ← List.countP_pos_iff, ← List.countP_pos_iff, hc]

/-- Round trip: adding an OOO period and then removing that same
(start, end) leaves `is_user_ooo` unchanged at every date. -/
theorem isUserOOO_add_remove (c : CalendarIntegration) (uid : Nat)
    (s e : String) (reason : Option String) (d : String) :
    ((c.addOOO uid s e reason).removeOOO uid s e).2.isUserOOO uid d =
      c.isUserOOO uid d := by
  have hadd : (c.addOOO uid s e reason).userOOO uid =
      sortByStart (c.userOOO uid ++ [⟨s, e, reason⟩]) := by
    simp [CalendarIntegration.addOOO]
  have hperm : List.Perm (sortByStart (c.userOOO uid ++ [⟨s, e, reason⟩]))
      (c.userOOO uid ++ [(⟨s, e, reason⟩ : OOOPeriod)]) := sortByStart_perm _
  rcases hrm : removeFirstMatch s e ((c.addOOO uid s e reason).userOOO uid)
      with - | l'
  · exfalso
    have hmem : (⟨s, e, reason⟩ : OOOPeriod) ∈
        (c.addOOO uid s e reason).userOOO uid := by
      rw [hadd]
      exact hperm.mem_iff.mpr (by simp)
    exact removeFirstMatch_none s e _ hrm _ hmem ⟨rfl, rfl⟩
  · obtain ⟨l1, q, l2, h1, h2, h3, h4⟩ := removeFirstMatch_some s e _ l' hrm
    have hres : ((c.addOOO uid s e reason).removeOOO uid s e).2.userOOO uid = l' := by
      unfold CalendarIntegration.removeOOO
      rw [hrm]
      simp
    set pd : OOOPeriod → Bool :=
      fun p => decide (p.startDate ≤ d) && decide (d ≤ p.endDate) with hpd
    have hcount : l'.countP pd = (c.userOOO uid).countP pd := by
      have e1 : ((c.addOOO uid s e reason).userOOO uid).countP pd =
          (c.userOOO uid).countP pd + (if pd ⟨s, e, reason⟩ then 1 else 0) := by
        rw [hadd, (sortByStart_perm _).countP_eq, List.countP_append]
        simp [List.countP_cons]
      have e2 : ((c.addOOO uid s e reason).userOOO uid).countP pd =
          l'.countP pd + (if pd q then 1 else 0) := by
        rw [h1, h2, List.countP_append, List.countP_append, List.countP_cons]
        omega
      have e3 : pd q = pd ⟨s, e, reason⟩ := by rw [hpd]; simp [h3, h4]
      rw [e3] at e2
      omega
    unfold CalendarIntegration.isUserOOO
    rw [hres]
    exact any_congr_countP pd l' (c.userOOO uid) hcount

/-- Removing one (start, end) period leaves every differently-keyed
covering period effective. -/
theorem isUserOOO_remove_other (c : CalendarIntegration) (uid : Nat)
    (s e d : String) (p : OOOPeriod) (hmem : p ∈ c.userOOO uid)
    (hne : p.startDate ≠ s ∨ p.endDate ≠ e)
    (h1 : p.startDate ≤ d) (h2 : d ≤ p.endDate) :
    ((c.removeOOO uid s e).2).isUserOOO uid d = true := by
  rcases hrm : removeFirstMatch s e (c.userOOO uid) with - | l'
  · have hres : (c.removeOOO uid s e).2 = c := by
      unfold CalendarIntegration.removeOOO
      rw [hrm]
    rw [hres]
    unfold CalendarIntegration.isUserOOO
    exact List.any_eq_true.mpr ⟨p, hmem, by simp [h1, h2]⟩
  · obtain ⟨l1, q, l2, hl, hl', h3, h4⟩ := removeFirstMatch_some s e _ l' hrm
    have hres : (c.removeOOO uid s e).2.userOOO uid = l' := by
      unfold CalendarIntegration.removeOOO
      rw [hrm]
      simp
    have hpq : p ≠ q := by
      intro hpq
      rcases hne with hne | hne
      · exact hne (hpq ▸ h3)
      · exact hne (hpq ▸ h4)
    have hpmem : p ∈ l' := by
      rw [hl'] ; rw [hl] at hmem
      rcases List.mem_append.mp hmem with hm | hm
      · exact List.mem_append.mpr (Or.inl hm)
      · rcases List.mem_cons.mp hm with rfl | hm
        · exact absurd rfl hpq
        · exact List.mem_append.mpr (Or.inr hm)
    unfold CalendarIntegration.isUserOOO
    rw [hres]
    exact List.any_eq_true.mpr ⟨p, hpmem, by simp [h1, h2]⟩

/-- **C9** — `is_user_ooo` is true iff some stored period contains the
date inclusively; an add followed by a remove of the same period restores
the prior answer; and removing one period leaves any other covering
period (with a different start/end key) effective. -/
theorem claim_ooo_roundtrip (c : CalendarIntegration) (uid : Nat)
    (d s e : String) (reason : Option String) :
    (c.isUserOOO uid d = true ↔
      ∃ p ∈ c.userOOO uid, p.startDate ≤ d ∧ d ≤ p.endDate) ∧
    ((c.addOOO uid s e reason).removeOOO uid s e).2.isUserOOO uid d =
      c.isUserOOO uid d ∧
    (∀ p ∈ c.userOOO uid, (p.startDate ≠ s ∨ p.endDate ≠ e) →
      p.startDate ≤ d → d ≤ p.endDate →
      ((c.removeOOO uid s e).2).isUserOOO uid d = true) := by
  refine ⟨?_, isUserOOO_add_remove c uid s e reason d,
    fun p hp hne h1 h2 => isUserOOO_remove_other c uid s e d p hp hne h1 h2⟩
  unfold CalendarIntegration.isUserOOO
  rw [List.any_eq_true]
  constructor
  · rintro ⟨p, hp, hpd⟩
    simp only [Bool.and_eq_true, decide_eq_true_eq] at hpd
    exact ⟨p, hp, hpd⟩
  · rintro ⟨p, hp, hpd⟩
    exact ⟨p, hp, by simp [hpd.1, hpd.2]⟩

/-! ## Nth-weekday lemmas -/

/-- If a day with the wanted weekday lies within `fuel` steps below `r`,
the walk-back loop stops exactly at the nearest one. -/
theorem walkBack_spec (wd : Nat) :
    ∀ fuel r, (∃ j, j ≤ fuel ∧ j ≤ r ∧ weekdayOfRata (r - j) = wd) →
      weekdayOfRata (walkBack wd fuel r) = wd ∧
      walkBack wd fuel r ≤ r ∧
      r - walkBack wd fuel r ≤ fuel ∧
      ∀ s, walkBack wd fuel r < s → s ≤ r → weekdayOfRata s ≠ wd := by
  intro fuel
  induction fuel with
  | zero =>
    rintro r ⟨j, hj0, hjr, hwd⟩
    have hj : j = 0 := Nat.le_zero.mp hj0
    subst hj
    rw [Nat.sub_zero] at hwd
    unfold walkBack
    exact ⟨hwd, Nat.le_refl r, by omega, fun s h1 h2 => by omega⟩
  | succ f ih =>
    rintro r ⟨j, hj, hjr, hwd⟩
    unfold walkBack
    by_cases hc : weekdayOfRata r = wd
    · rw [if_pos hc]
      exact ⟨hc, Nat.le_refl r, by omega, fun s h1 h2 => by omega⟩
    · rw [if_neg hc]
      have hj0 : j ≠ 0 := by
        intro h
        subst h
        rw [Nat.sub_zero] at hwd
        exact hc hwd
      have hex : ∃ j', j' ≤ f ∧ j' ≤ r - 1 ∧ weekdayOfRata (r - 1 - j') = wd :=
        ⟨j - 1, by omega, by omega,
          by rw [show r - 1 - (j - 1) = r - j by omega]; exact hwd⟩
      obtain ⟨h1, h2, h3, h4⟩ := ih (r - 1) hex
      refine ⟨h1, by omega, by omega, fun s hs1 hs2 => ?_⟩
      rcases Nat.lt_or_ge s r with hlt | hge
      · exact h4 s hs1 (by omega)
      · have hsr : s = r := by omega
        subst hsr
        exact hc

/-- Within any 7 consecutive day numbers there is one of each weekday. -/
theorem exists_weekday_within (wd r : Nat) (hwd : wd < 7) (hr : 7 ≤ r) :
    ∃ j, j ≤ 7 ∧ j ≤ r ∧ weekdayOfRata (r - j) = wd := by
  refine ⟨(weekdayOfRata r + 7 - wd) % 7, ?_, ?_, ?_⟩ <;>
    · unfold weekdayOfRata
      omega

/-- Day numbers of dates in year 1 or later are at least a week. -/
theorem rataDie_ge (y m d : Nat) (hy : 1 ≤ y) : 7 ≤ rataDie ⟨y, m, d⟩ := by
  unfold rataDie
  by_cases hm : m ≤ 2 <;> simp only [hm, if_true, if_false] <;> omega

/-- `rataDie` is linear in the day-of-month component. -/
theorem rataDie_day (y m d : Nat) (hd : 1 ≤ d) :
    rataDie ⟨y, m, d⟩ = rataDie ⟨y, m, 1⟩ + (d - 1) := by
  unfold rataDie
  by_cases hm : m ≤ 2 <;> simp only [hm, if_true, if_false] <;> omega

/-- **C8** — the nth-weekday computation follows the standard rule:
`last` walks back from month-end to the nearest matching weekday (and
nothing later in the month matches); an ordinal `n` lands on a matching
weekday in week `n` counted from day 1, inside the month; and concretely
the monthly "last friday" pattern resolves February 2024 to 2024-02-23
and February 2025 to 2025-02-28, the first match strictly after
`after`. -/
theorem claim_monthly_nth_weekday (y m wd n : Nat)
    (hy : 1 ≤ y) (hwd : wd < 7) (hn : 1 ≤ n) :
    (nthCandidateDate y m none wd =
      some (civilFromRata (walkBack wd 7 (rataDie ⟨y, m, monthLen y m⟩))) ∧
     weekdayOfRata (walkBack wd 7 (rataDie ⟨y, m, monthLen y m⟩)) = wd ∧
     walkBack wd 7 (rataDie ⟨y, m, monthLen y m⟩) ≤
       rataDie ⟨y, m, monthLen y m⟩ ∧
     (∀ s, walkBack wd 7 (rataDie ⟨y, m, monthLen y m⟩) < s →
       s ≤ rataDie ⟨y, m, monthLen y m⟩ → weekdayOfRata s ≠ wd)) ∧
    (∀ dte, nthCandidateDate y m (some n) wd = some dte →
      dte.year = y ∧ dte.month = m ∧ Date.weekday dte = wd ∧
      (dte.day - 1) / 7 = n - 1 ∧ 1 ≤ dte.day ∧ dte.day ≤ monthLen y m) ∧
    lastFridayMonthly.nextOccurrence ⟨⟨2024, 2, 1⟩, 0, 0⟩ =
      some ⟨⟨2024, 2, 23⟩, 9, 0⟩ ∧
    lastFridayMonthly.nextOccurrence ⟨⟨2025, 2, 1⟩, 0, 0⟩ =
      some ⟨⟨2025, 2, 28⟩, 9, 0⟩ := by
  have h7 : 7 ≤ rataDie ⟨y, m, monthLen y m⟩ := rataDie_ge y m _ hy
  obtain ⟨h1, h2, h3, h4⟩ :=
    walkBack_spec wd 7 _ (exists_weekday_within wd _ hwd h7)
  refine ⟨⟨rfl, h1, h2, h4⟩, ?_, by decide, by decide⟩
  intro dte h
  have hh : nthCandidateDate y m (some n) wd =
      if 1 + (wd + 7 - weekdayOfRata (rataDie ⟨y, m, 1⟩)) % 7 + 7 * (n - 1) ≤
          monthLen y m then
        some ⟨y, m, 1 + (wd + 7 - weekdayOfRata (rataDie ⟨y, m, 1⟩)) % 7
          + 7 * (n - 1)⟩
      else none := rfl
  rw [hh] at h
  split at h
  · next hle =>
    have hd : dte = ⟨y, m, 1 + (wd + 7 - weekdayOfRata (rataDie ⟨y, m, 1⟩)) % 7
        + 7 * (n - 1)⟩ := (Option.some.inj h).symm
    subst hd
    refine ⟨rfl, rfl, ?_, ?_, ?_, ?_⟩
    · show weekdayOfRata (rataDie ⟨y, m, _⟩) = wd
      rw [rataDie_day y m _ (by omega)]
      unfold weekdayOfRata
      omega
    · show (1 + (wd + 7 - weekdayOfRata (rataDie ⟨y, m, 1⟩)) % 7
        + 7 * (n - 1) - 1) / 7 = n - 1
      omega
    · show 1 ≤ 1 + (wd + 7 - weekdayOfRata (rataDie ⟨y, m, 1⟩)) % 7 + 7 * (n - 1)
      omega
    · exact hle
  · exact Option.noConfusion h

/-- Witness for **C8** at year 2024, month 2, weekday friday, ordinal 1. -/
theorem claim_monthly_nth_weekday_witness :
    (nthCandidateDate 2024 2 none 4 =
      some (civilFromRata (walkBack 4 7 (rataDie ⟨2024, 2, monthLen 2024 2⟩))) ∧
     weekdayOfRata (walkBack 4 7 (rataDie ⟨2024, 2, monthLen 2024 2⟩)) = 4 ∧
     walkBack 4 7 (rataDie ⟨2024, 2, monthLen 2024 2⟩) ≤
       rataDie ⟨2024, 2, monthLen 2024 2⟩ ∧
     (∀ s, walkBack 4 7 (rataDie ⟨2024, 2, monthLen 2024 2⟩) < s →
       s ≤ rataDie ⟨2024, 2, monthLen 2024 2⟩ → weekdayOfRata s ≠ 4)) ∧
    (∀ dte, nthCandidateDate 2024 2 (some 1) 4 = some dte →
      dte.year = 2024 ∧ dte.month = 2 ∧ Date.weekday dte = 4 ∧
      (dte.day - 1) / 7 = 0 ∧ 1 ≤ dte.day ∧ dte.day ≤ monthLen 2024 2) ∧
    lastFridayMonthly.nextOccurrence ⟨⟨2024, 2, 1⟩, 0, 0⟩ =
      some ⟨⟨2024, 2, 23⟩, 9, 0⟩ ∧
    lastFridayMonthly.nextOccurrence ⟨⟨2025, 2, 1⟩, 0, 0⟩ =
      some ⟨⟨2025, 2, 28⟩, 9, 0⟩ :=
  claim_monthly_nth_weekday 2024 2 4 1 (by decide) (by decide) (by decide)

/-! ## Engine lemmas -/

/-- The live (non-tombstone) entries of an engine state. -/
def liveTasks (st : ScheduleEngine) : List ScheduledTask :=
  st.scheduledTasks.filterMap id

theorem filterMap_id_map_some (l : List ScheduledTask) :
    (l.map some).filterMap id = l := by
  induction l with
  | nil => rfl
  | cons a rest ih => simp [ih]

theorem liveTasks_sortTasks (st : ScheduleEngine) :
    liveTasks st.sortTasks = sortByFire (liveTasks st) := by
  unfold ScheduleEngine.sortTasks liveTasks
  simp [filterMap_id_map_some]

/-- Tombstoning the entry an index names removes exactly that entry from
the live list, as counted by any predicate. -/
theorem countP_set_none (pd : ScheduledTask → Bool) :
    ∀ (l : List (Option ScheduledTask)) (i : Nat) (x : ScheduledTask),
      l.get? i = some (some x) →
      ((l.set i none).filterMap id).countP pd + (if pd x then 1 else 0) =
        (l.filterMap id).countP pd := by
  intro l
  induction l with
  | nil => intro i x h; simp at h
  | cons a rest ih =>
    intro i x h
    cases i with
    | zero =>
      have ha : a = some x := Option.some.inj h
      subst ha
      simp [List.countP_cons]
    | succ j =>
      have hj : rest.get? j = some (some x) := by simpa using h
      cases a with
      | none => simpa using ih j x hj
      | some b =>
        have hstep : ((some b :: rest).set (j + 1) none).filterMap id =
            b :: (rest.set j none).filterMap id := rfl
        have hstep2 : ((some b :: rest).filterMap id) =
            b :: rest.filterMap id := rfl
        rw [hstep, hstep2, List.countP_cons, List.countP_cons]
        have := ih j x hj
        omega

theorem mem_set_none (l : List (Option ScheduledTask)) (i : Nat)
    (x : ScheduledTask) (h : x ∈ (l.set i none).filterMap id) :
    x ∈ l.filterMap id := by
  rw [List.mem_filterMap] at h ⊢
  obtain ⟨a, ha, hid⟩ := h
  rcases List.mem_or_eq_of_mem_set ha with hmem | rfl
  · exact ⟨a, hmem, hid⟩
  · exact Option.noConfusion hid

theorem countP_insertByFire (pd : ScheduledTask → Bool) (t : ScheduledTask) :
    ∀ l, (insertByFire t l).countP pd = l.countP pd + (if pd t then 1 else 0) := by
  intro l
  induction l with
  | nil => simp [insertByFire, List.countP_cons]
  | cons h rest ih =>
    unfold insertByFire
    by_cases hc : h.fireAt < t.fireAt
    · rw [if_pos hc]
      simp only [List.countP_cons, ih] <;> omega
    · rw [if_neg hc]
      simp only [List.countP_cons] <;> omega

theorem countP_sortByFire (pd : ScheduledTask → Bool) :
    ∀ l, (sortByFire l).countP pd = l.countP pd := by
  intro l
  induction l with
  | nil => rfl
  | cons h rest ih =>
    unfold sortByFire
    rw [countP_insertByFire, ih, List.countP_cons]

theorem length_sortByFire (l : List ScheduledTask) :
    (sortByFire l).length = l.length := by
  have h := countP_sortByFire (fun _ => true) l
  rwa [List.countP_true] at h

theorem mem_insertByFire (t x : ScheduledTask) :
    ∀ l, x ∈ insertByFire t l ↔ x = t ∨ x ∈ l := by
  intro l
  induction l with
  | nil => simp [insertByFire]
  | cons h rest ih =>
    unfold insertByFire
    by_cases hc : h.fireAt < t.fireAt
    · rw [if_pos hc]
      simp only [List.mem_cons, ih] <;> tauto
    · rw [if_neg hc]
      simp only [List.mem_cons] <;> tauto

theorem mem_sortByFire (x : ScheduledTask) :
    ∀ l, x ∈ sortByFire l ↔ x ∈ l := by
  intro l
  induction l with
  | nil => simp [sortByFire]
  | cons h rest ih =>
    unfold sortByFire
    rw [mem_insertByFire]
    simp only [List.mem_cons, ih]

theorem pairwise_insertByFire (t : ScheduledTask) :
    ∀ l, l.Pairwise (fun a b => a.fireAt ≤ b.fireAt) →
      (insertByFire t l).Pairwise (fun a b => a.fireAt ≤ b.fireAt) := by
  intro l
  induction l with
  | nil => intro _; exact List.pairwise_singleton _ t
  | cons h rest ih =>
    intro hp
    rw [List.pairwise_cons] at hp
    obtain ⟨hh, hrest⟩ := hp
    unfold insertByFire
    by_cases hc : h.fireAt < t.fireAt
    · rw [if_pos hc, List.pairwise_cons]
      refine ⟨fun y hy => ?_, ih hrest⟩
      rcases (mem_insertByFire t y rest).mp hy with rfl | hy'
      · exact Nat.le_of_lt hc
      · exact hh y hy'
    · rw [if_neg hc, List.pairwise_cons]
      refine ⟨fun y hy => ?_, List.pairwise_cons.mpr ⟨hh, hrest⟩⟩
      rcases List.mem_cons.mp hy with rfl | hy'
      · omega
      · have := hh y hy'
        omega

theorem pairwise_sortByFire :
    ∀ l, (sortByFire l).Pairwise (fun a b => a.fireAt ≤ b.fireAt) := by
  intro l
  induction l with
  | nil => exact List.Pairwise.nil
  | cons h rest ih => exact pairwise_insertByFire h _ ih

/-- On a fire-time-sorted list, everything the pop loop leaves behind is
strictly later than the cutoff. -/
theorem popDue_rem_gt (nowMin : Nat) :
    ∀ (l : List ScheduledTask) (m : TaskMap),
      l.Pairwise (fun a b => a.fireAt ≤ b.fireAt) →
      ∀ x ∈ (popDue nowMin l m).2.2, nowMin < x.fireAt := by
  intro l
  induction l with
  | nil => intro m _ x hx; simp [popDue] at hx
  | cons t rest ih =>
    intro m hp x hx
    rw [List.pairwise_cons] at hp
    unfold popDue at hx
    by_cases hc : t.fireAt ≤ nowMin
    · rw [if_pos hc] at hx
      exact ih (mapDel m t.id) hp.2 x hx
    · rw [if_neg hc] at hx
      rcases List.mem_cons.mp hx with rfl | hx'
      · omega
      · have := hp.1 x hx'
        omega

/-- The pop loop pops nothing when every fire time is past the cutoff. -/
theorem popDue_all_gt (nowMin : Nat) :
    ∀ (l : List ScheduledTask) (m : TaskMap),
      (∀ x ∈ l, nowMin < x.fireAt) → popDue nowMin l m = ([], m, l) := by
  intro l m h
  cases l with
  | nil => rfl
  | cons t rest =>
    have ht := h t (List.mem_cons_self t rest)
    unfold popDue
    rw [if_neg (by omega)]

/-- Everything live after a `schedule_task` call was live before or is
the freshly computed occurrence. -/
theorem scheduleTask_mem (st : ScheduleEngine) (now : DateTime) (tid : String)
    (p : SchedulePattern) (x : ScheduledTask)
    (hx : x ∈ liveTasks (st.scheduleTask now tid p).2) :
    x ∈ liveTasks st ∨
      ∃ nt, p.nextOccurrence now = some nt ∧ x = ⟨nt.toMin, tid, p⟩ := by
  rcases hno : p.nextOccurrence now with - | nt
  · simp only [ScheduleEngine.scheduleTask, hno] at hx
    exact Or.inl hx
  · simp only [ScheduleEngine.scheduleTask, hno] at hx
    rw [liveTasks_sortTasks] at hx
    have hx2 := (mem_sortByFire x _).mp hx
    simp only [liveTasks, List.filterMap_append] at hx2
    rcases List.mem_append.mp hx2 with hmem | hmem
    · rcases hl : mapLookup st.taskMap tid with - | oldIdx <;> rw [hl] at hmem
      · exact Or.inl hmem
      · exact Or.inl (mem_set_none _ _ _ hmem)
    · simp only [List.filterMap_cons, id_def, List.filterMap_nil] at hmem
      rcases List.mem_cons.mp hmem with rfl | h0
      · exact Or.inr ⟨nt, rfl, rfl⟩
      · exact absurd h0 (List.not_mem_nil x)

/-- The rescheduling fold keeps every live fire time past the cutoff. -/
theorem foldl_reschedule_gt (now : DateTime) :
    ∀ (ds : List ScheduledTask) (s0 : ScheduleEngine),
      (∀ x ∈ liveTasks s0, now.toMin < x.fireAt) →
      ∀ x ∈ liveTasks
        (ds.foldl (fun s t => (s.scheduleTask now t.id t.pattern).2) s0),
        now.toMin < x.fireAt := by
  intro ds
  induction ds with
  | nil => intro s0 h x hx; exact h x hx
  | cons d rest ih =>
    intro s0 h x hx
    rw [List.foldl_cons] at hx
    refine ih _ ?_ x hx
    intro y hy
    rcases scheduleTask_mem s0 now d.id d.pattern y hy with hmem | ⟨nt, hnt, rfl⟩
    · exact h y hmem
    · exact nextOccurrence_gt _ _ _ hnt

/-- After a tick at `now`, every live entry fires strictly after `now`. -/
theorem getDueTasks_snd_gt (st : ScheduleEngine) (now : DateTime) :
    ∀ x ∈ liveTasks (st.getDueTasks now).2, now.toMin < x.fireAt := by
  intro x hx
  refine foldl_reschedule_gt now _ _ ?_ x hx
  intro y hy
  simp only [liveTasks, filterMap_id_map_some] at hy
  exact popDue_rem_gt now.toMin _ _ (pairwise_sortByFire _) y hy

/-- **C5** — two ticks in immediate succession at the same instant: the
second returns an empty due list, so no entry fires twice for the same
occurrence. -/
theorem claim_tick_twice_second_empty (st : ScheduleEngine) (now : DateTime) :
    ((st.getDueTasks now).2.getDueTasks now).1 = [] := by
  have hall := getDueTasks_snd_gt st now
  have hts : ∀ x ∈ sortByFire
      ((st.getDueTasks now).2.scheduledTasks.filterMap id),
      now.toMin < x.fireAt := by
    intro x hx
    exact hall x ((mem_sortByFire x _).mp hx)
  show ((popDue now.toMin
    (sortByFire ((st.getDueTasks now).2.scheduledTasks.filterMap id))
    (rebuildMap (sortByFire
      ((st.getDueTasks now).2.scheduledTasks.filterMap id)))).1.map
        (fun t => t.id)) = []
  rw [popDue_all_gt now.toMin _ _ hts]
  rfl

/-! ## Index consistency -/

/-- One `task_map` binding names a live entry carrying exactly its id. -/
def entryHasId (st : ScheduleEngine) (pr : String × Nat) : Bool :=
  match st.scheduledTasks.get? pr.2 with
  | some (some t) => decide (t.id = pr.1)
  | _ => false

/-- Well-formed engine state: every `task_map` binding names a live entry
with that id, and no two live entries share an id. -/
def engineWF (st : ScheduleEngine) : Bool :=
  st.taskMap.all (entryHasId st) &&
    decide (((liveTasks st).map (fun t => t.id)).Nodup)

theorem countP_le_one_of_nodup (l : List ScheduledTask) (tid : String)
    (h : (l.map (fun t => t.id)).Nodup) :
    l.countP (fun t => decide (t.id = tid)) ≤ 1 := by
  induction l with
  | nil => simp
  | cons a rest ih =>
    rw [List.map_cons, List.nodup_cons] at h
    rw [List.countP_cons]
    by_cases hc : a.id = tid
    · have h0 : rest.countP (fun t => decide (t.id = tid)) = 0 := by
        rw [List.countP_eq_zero]
        intro b hb
        simp only [decide_eq_true_eq]
        intro hbid
        exact h.1 (hc ▸ hbid ▸ List.mem_map_of_mem (fun t => t.id) hb)
      rw [h0]
      simp [hc]
    · have := ih h.2
      simp [hc]
      omega

/-- In a well-formed state a `task_map` hit names a live entry with
exactly the looked-up id. -/
theorem engineWF_entry (st : ScheduleEngine) (tid : String) (idx : Nat)
    (hwf : engineWF st = true) (hl : mapLookup st.taskMap tid = some idx) :
    ∃ t, st.scheduledTasks.get? idx = some (some t) ∧ t.id = tid := by
  unfold mapLookup at hl
  rw [Option.map_eq_some'] at hl
  obtain ⟨pr, hf, hidx⟩ := hl
  have hpr1 : pr.1 = tid := by simpa using List.find?_some hf
  unfold engineWF at hwf
  rw [Bool.and_eq_true] at hwf
  have hall := List.all_eq_true.mp hwf.1 pr (List.mem_of_find?_eq_some hf)
  unfold entryHasId at hall
  obtain ⟨t, hget, hid⟩ :
      ∃ t, st.scheduledTasks.get? pr.2 = some (some t) ∧ t.id = pr.1 := by
    split at hall
    · next t heq => exact ⟨t, heq, of_decide_eq_true hall⟩
    · exact Bool.noConfusion hall
  exact ⟨t, hidx ▸ hget, hpr1 ▸ hid⟩

/-- **C4** (amended) — in a *well-formed* state already holding an entry
for `task_id` (every `task_map` binding names a live entry with that id
and live ids are duplicate-free — true after any `schedule_task` /
`cancel_task`, though `get_due_tasks` can break it), scheduling again
under the same id (with a pattern that has a next occurrence) replaces
rather than duplicates: the call succeeds, afterwards exactly one live
entry carries that id, and the number of live queue entries is
unchanged.  The well-formedness restriction is forced by
`claim_schedule_replaces_counterexample` below. -/
theorem claim_schedule_replaces (st : ScheduleEngine) (now : DateTime)
    (tid : String) (p : SchedulePattern) (nt : DateTime)
    (hwf : engineWF st = true)
    (hmem : mapLookup st.taskMap tid ≠ none)
    (hnext : p.nextOccurrence now = some nt) :
    (st.scheduleTask now tid p).1 = true ∧
    (liveTasks (st.scheduleTask now tid p).2).countP
      (fun t => decide (t.id = tid)) = 1 ∧
    (liveTasks (st.scheduleTask now tid p).2).length =
      (liveTasks st).length := by
  obtain ⟨idx, hl⟩ : ∃ i, mapLookup st.taskMap tid = some i := by
    rcases h : mapLookup st.taskMap tid with - | i
    · exact absurd h hmem
    · exact ⟨i, rfl⟩
  obtain ⟨t, hget, htid⟩ := engineWF_entry st tid idx hwf hl
  have hnodup : ((liveTasks st).map (fun t => t.id)).Nodup := by
    unfold engineWF at hwf
    rw [Bool.and_eq_true] at hwf
    exact of_decide_eq_true hwf.2
  have hmemt : t ∈ liveTasks st :=
    List.mem_filterMap.mpr ⟨some t, List.get?_mem hget, rfl⟩
  have hcount1 : (liveTasks st).countP (fun u => decide (u.id = tid)) = 1 := by
    have hle := countP_le_one_of_nodup _ tid hnodup
    have hpos : 0 < (liveTasks st).countP (fun u => decide (u.id = tid)) :=
      List.countP_pos_iff.mpr ⟨t, hmemt, by simp [htid]⟩
    omega
  have hset := countP_set_none (fun u => decide (u.id = tid))
    st.scheduledTasks idx t hget
  have hpt : (if decide (t.id = tid) = true then 1 else 0) = 1 := by
    simp [htid]
  rw [hpt] at hset
  have hsetlen := countP_set_none (fun _ => true) st.scheduledTasks idx t hget
  rw [List.countP_true] at hsetlen
  rw [if_pos rfl] at hsetlen
  simp only [ScheduleEngine.scheduleTask, hnext, hl]
  refine ⟨trivial, ?_, ?_⟩
  · rw [liveTasks_sortTasks, countP_sortByFire]
    simp only [liveTasks, List.filterMap_append, List.countP_append]
    have h1 : ((st.scheduledTasks.set idx none).filterMap id).countP
        (fun u => decide (u.id = tid)) = 0 := by
      have hc1 : (st.scheduledTasks.filterMap id).countP
          (fun u => decide (u.id = tid)) = 1 := hcount1
      omega
    rw [h1]
    simp
  · rw [liveTasks_sortTasks, length_sortByFire]
    simp only [liveTasks, List.filterMap_append, List.length_append]
    have h2 : ((st.scheduledTasks.set idx none).filterMap id).length + 1 =
        (st.scheduledTasks.filterMap id).length := hsetlen
    simp only [List.filterMap_cons, id_def, List.filterMap_nil,
      List.length_cons, List.length_nil]
    omega

/-- **C4** (counterexample) — the claim as stated, over *every* state
containing an entry for the task id, is false at a reachable state: in
`engineABCStale` (the stale post-tick state of C10) the map still holds
an entry for "B" and the one-time Jan-3 pattern has a next occurrence,
yet `schedule_task("B", ...)` reads the stale index 1, tombstones the
unrelated entry "C", and after the rebuild TWO live entries carry "B"
(and none carry "C") — not exactly one, and the queue contents are
corrupted rather than replaced. -/
theorem claim_schedule_replaces_counterexample :
    mapLookup engineABCStale.taskMap "B" = some 1 ∧
    (liveTasks engineABCStale).countP (fun t => decide (t.id = "B")) = 1 ∧
    (liveTasks engineABCStale).countP (fun t => decide (t.id = "C")) = 1 ∧
    (oneTimeJan3.nextOccurrence ⟨⟨2024, 1, 2⟩, 12, 0⟩).isSome = true ∧
    (liveTasks ((engineABCStale.scheduleTask ⟨⟨2024, 1, 2⟩, 12, 0⟩ "B"
      oneTimeJan3).2)).countP (fun t => decide (t.id = "B")) = 2 ∧
    (liveTasks ((engineABCStale.scheduleTask ⟨⟨2024, 1, 2⟩, 12, 0⟩ "B"
      oneTimeJan3).2)).countP (fun t => decide (t.id = "C")) = 0 := by
  refine ⟨by decide, by decide, by decide, by decide, by decide, by decide⟩

/-- Witness for **C4**: re-scheduling "A" on the two-task engine. -/
theorem claim_schedule_replaces_witness :
    engineWF engineAB = true ∧
    (liveTasks (engineAB.scheduleTask ⟨⟨2024, 1, 1⟩, 8, 0⟩ "A"
      oneTimeJan2).2).countP (fun t => decide (t.id = "A")) = 1 ∧
    (liveTasks (engineAB.scheduleTask ⟨⟨2024, 1, 1⟩, 8, 0⟩ "A"
      oneTimeJan2).2).length = (liveTasks engineAB).length :=
  ⟨by decide,
   (claim_schedule_replaces engineAB ⟨⟨2024, 1, 1⟩, 8, 0⟩ "A" oneTimeJan2
     ⟨⟨2024, 1, 2⟩, 9, 0⟩ (by decide) (by decide) (by decide)).2.1,
   (claim_schedule_replaces engineAB ⟨⟨2024, 1, 1⟩, 8, 0⟩ "A" oneTimeJan2
     ⟨⟨2024, 1, 2⟩, 9, 0⟩ (by decide) (by decide) (by decide)).2.2⟩
